import Mathlib

/-!
Shallow embedding of the turbine_optimizer repository
(src/data_processor.py and src/power_optimizer.py).

Numeric cells of the pandas DataFrame are modelled as `Option ℚ`:
`none` stands for a missing value / IEEE NaN, `some q` for a finite float.
All arithmetic on cells threads `none` the way IEEE arithmetic threads NaN.
The one place where an infinite value can arise (the efficiency division)
is modelled with the extended type `XVal` below.
-/

/-- Lift a binary rational operation to NaN-threading cells. -/
def o2 (f : ℚ → ℚ → ℚ) : Option ℚ → Option ℚ → Option ℚ
  | some a, some b => some (f a b)
  | _, _ => none

/-- Negation on cells (NaN stays NaN). -/
def oneg : Option ℚ → Option ℚ
  | some a => some (-a)
  | none => none

/-- The non-missing entries of a column, in order. -/
def somes : List (Option ℚ) → List ℚ
  | [] => []
  | none :: t => somes t
  | some v :: t => v :: somes t

/-- pandas Series.mean with its default skipna=True: the mean of the
non-missing entries, NaN when there are none. -/
def pmean (xs : List (Option ℚ)) : Option ℚ :=
  match somes xs with
  | [] => none
  | v :: t => some ((v :: t).sum / (((v :: t).length : ℕ) : ℚ))

/-- Result of a float division before any clipping: finite, ±infinity or NaN. -/
inductive XVal : Type
  | num : ℚ → XVal
  | pinf : XVal
  | ninf : XVal
  | nan : XVal
deriving DecidableEq, Repr

/-- IEEE division of two cells: x/0 is ±infinity for x ≠ 0 and NaN for 0/0;
anything involving NaN is NaN. -/
def xdiv : Option ℚ → Option ℚ → XVal
  | some p, some t =>
    if t = 0 then (if 0 < p then XVal.pinf else if p < 0 then XVal.ninf else XVal.nan)
    else XVal.num (p / t)
  | _, _ => XVal.nan

/-- pandas Series.clip lo hi on an extended value: finite values are clamped,
+inf becomes hi, -inf becomes lo, NaN stays NaN (missing). -/
def xclip (lo hi : ℚ) : XVal → Option ℚ
  | XVal.num q => some (max lo (min hi q))
  | XVal.pinf => some hi
  | XVal.ninf => some lo
  | XVal.nan => none

/-- One row of the turbine DataFrame (src column names). -/
@[ext] structure Row where
  wind_speed : Option ℚ
  wind_direction : Option ℚ
  air_density : Option ℚ
  power_output : Option ℚ
  pitch_angle : Option ℚ
  theoretical_power : Option ℚ
  efficiency : Option ℚ
deriving DecidableEq, Repr

/-- A DataFrame: the rows plus presence flags for the optional columns.
wind_speed, wind_direction and pitch_angle are modelled as always present;
when a flag is false the corresponding Row field is dead data that no
operation reads or writes. -/
@[ext] structure Table where
  hasPower : Bool
  hasAir : Bool
  hasTheo : Bool
  hasEff : Bool
  rows : List Row
deriving DecidableEq, Repr

/-!  Linear interpolation, pandas interpolate(method=linear) with the default
limit_direction=forward: interior gaps are filled linearly between the two
neighbouring valid values, gaps after the last valid value are filled with
that value, gaps before the first valid value stay missing. -/

/-- Index and value of the last non-missing entry of a column. -/
def lastSome : List (Option ℚ) → Option (ℕ × ℚ)
  | [] => none
  | x :: t =>
    match lastSome t with
    | some p => some (p.1 + 1, p.2)
    | none => x.map (fun v => (0, v))

/-- Index and value of the first non-missing entry of a column. -/
def firstSome : List (Option ℚ) → Option (ℕ × ℚ)
  | [] => none
  | some v :: _ => some (0, v)
  | none :: t => (firstSome t).map (fun p => (p.1 + 1, p.2))

/-- Value at index k of the interpolated column. -/
def interpAt (xs : List (Option ℚ)) (k : ℕ) : Option ℚ :=
  match xs[k]? with
  | some (some v) => some v
  | _ =>
    match lastSome (xs.take k), firstSome (xs.drop (k + 1)) with
    | some p, some q =>
        some (p.2 + ((k : ℚ) - (p.1 : ℚ)) * (q.2 - p.2) / (((q.1 + k + 1 : ℕ) : ℚ) - (p.1 : ℚ)))
    | some p, none => some p.2
    | none, _ => none

/-- pandas linear interpolation of one column. -/
def interpCol (xs : List (Option ℚ)) : List (Option ℚ) :=
  (List.range xs.length).map (interpAt xs)

/-- Interpolated value of one optional column at index k: the column is only
interpolated when it exists in the DataFrame. -/
def interpField (flag : Bool) (g : Row → Option ℚ) (rs : List Row) (k : ℕ) : Option ℚ :=
  if flag then interpAt (rs.map g) k else rs[k]?.bind g

/-- DataFrame.interpolate(method=linear): every present column is
interpolated independently along row order. -/
def interpRows (t : Table) : List Row :=
  (List.range t.rows.length).map (fun k =>
    { wind_speed := interpAt (t.rows.map Row.wind_speed) k
      wind_direction := interpAt (t.rows.map Row.wind_direction) k
      air_density := interpField t.hasAir Row.air_density t.rows k
      power_output := interpField t.hasPower Row.power_output t.rows k
      pitch_angle := interpAt (t.rows.map Row.pitch_angle) k
      theoretical_power := interpField t.hasTheo Row.theoretical_power t.rows k
      efficiency := interpField t.hasEff Row.efficiency t.rows k })

/-- Row predicate wind_speed >= 0; NaN compares false, so the row is dropped. -/
def wsLo (r : Row) : Bool :=
  match r.wind_speed with
  | some v => decide (0 ≤ v)
  | none => false

/-- Row predicate wind_speed <= 50. -/
def wsHi (r : Row) : Bool :=
  match r.wind_speed with
  | some v => decide (v ≤ 50)
  | none => false

/-- Row predicate power_output >= 0. -/
def powNonneg (r : Row) : Bool :=
  match r.power_output with
  | some v => decide (0 ≤ v)
  | none => false

/-- theoretical_power = 0.5 * air_density * 10000 * wind_speed ** 3. -/
def theoOf (r : Row) : Option ℚ :=
  o2 (fun d w => 1 / 2 * d * 10000 * w ^ 3) r.air_density r.wind_speed

/-- efficiency = (power_output * 1000) / theoretical_power, then clipped
to the interval from 0 to the Betz limit 0.59. -/
def effOf (p t : Option ℚ) : Option ℚ :=
  xclip 0 (59 / 100) (xdiv (p.map (fun v => v * 1000)) t)

/-- The derived-feature step of process_data: assign theoretical_power and,
when power_output exists, efficiency. -/
def derive (hasPower : Bool) (r : Row) : Row :=
  let t := theoOf r
  { r with theoretical_power := t
           efficiency := if hasPower then effOf r.power_output t else r.efficiency }

/-- The filtering stage of process_data: interpolate, then drop rows with
wind_speed outside the range from 0 to 50, then drop rows with negative
power_output when that column exists. -/
def filtRows (x : Table) : List Row :=
  let rows2 := ((interpRows x).filter wsLo).filter wsHi
  if x.hasPower then rows2.filter powNonneg else rows2

/-- The rows of the cleaned table: filtering stage, then the derived
columns when wind_speed and air_density are both present. -/
def cleanRows (x : Table) : List Row :=
  if x.hasAir then (filtRows x).map (derive x.hasPower) else filtRows x

/-- src/data_processor.py process_data: interpolate missing values, drop rows
with wind_speed outside the range from 0 to 50, drop rows with negative
power_output when that column exists, then derive theoretical_power and
efficiency when their inputs exist. -/
def process_data (x : Table) : Table :=
  if x.hasAir then
    { x with rows := cleanRows x
             hasTheo := true
             hasEff := x.hasEff || x.hasPower }
  else
    { x with rows := cleanRows x }

/-!  src/power_optimizer.py  -/

/-- Yaw misalignment: absolute difference, folded onto the circle when
it exceeds 180 degrees. -/
def yawMisalignment (wdv ya : ℚ) : ℚ :=
  let m := |wdv - ya|
  if 180 < m then 360 - m else m

/-- The rows whose wind_speed is at least the threshold (relevant_data). -/
def relevantRows (rows : List Row) (thr : ℚ) : List Row :=
  rows.filter (fun r =>
    match r.wind_speed with
    | some w => decide (thr ≤ w)
    | none => false)

/-- Per-row power proxy of the power model; NaN if any input is missing. -/
def rowPower (yaw pitch : Option ℚ) (r : Row) : Option ℚ :=
  match r.wind_speed, r.air_density, r.wind_direction, r.pitch_angle, yaw, pitch with
  | some w, some d, some wdv, some pv, some ya, some pa =>
      some (w ^ 3 * (1 / 2) * d * (1 / 2) * (1 - 1 / 100 * yawMisalignment wdv ya)
        * (1 - 2 / 100 * |pa - pv|))
  | _, _, _, _, _, _ => none

/-- power_model: filter by the wind-speed threshold, return 0 when nothing
remains, otherwise the negated mean of the per-row power proxy. -/
def power_model (yaw pitch : Option ℚ) (rows : List Row) (thr : ℚ) : Option ℚ :=
  let rel := relevantRows rows thr
  if rel.isEmpty then some 0
  else oneg (pmean (rel.map (rowPower yaw pitch)))

/-- avg_wind_direction: mean of the wind_direction column. -/
def initialYaw (t : Table) : Option ℚ :=
  pmean (t.rows.map Row.wind_direction)

/-- avg_pitch_angle: mean of the pitch_angle column. -/
def initialPitch (t : Table) : Option ℚ :=
  pmean (t.rows.map Row.pitch_angle)

/-- initial_power = -power_model(initial_params, data, threshold). -/
def initialPower (t : Table) (thr : ℚ) : Option ℚ :=
  oneg (power_model (initialYaw t) (initialPitch t) t.rows thr)

/-- Python max(0, x) on a cell: max compares with an IEEE comparison, so a
NaN argument loses and the result is 0. -/
def pyMax0 (x : Option ℚ) : Option ℚ :=
  match x with
  | some v => some (max 0 v)
  | none => some 0

/-- Clamp a cell into a box; any NaN among the inputs gives NaN. -/
def oclamp (lo hi x : Option ℚ) : Option ℚ :=
  match lo, hi, x with
  | some a, some b, some v => some (min b (max a v))
  | _, _, _ => none

/-- Modelled from the spec: scipy.optimize.minimize with method L-BFGS-B is
external library code, absent from src/. Section 4.3 of the spec requires of
it only that it starts from the given initial guess, respects the box bounds
exactly, and returns the best point it found together with the objective
value there (result.x and result.fun). We model the weakest such minimizer:
it projects the initial guess into the box and returns that point. -/
def minimizeBox (f : Option ℚ → Option ℚ → Option ℚ)
    (y0 p0 ylo yhi plo phi : Option ℚ) : (Option ℚ × Option ℚ) × Option ℚ :=
  let y := oclamp ylo yhi y0
  let p := oclamp plo phi p0
  ((y, p), f y p)

/-- src/power_optimizer.py optimize_power: means as initial guess, box bounds
(with the pitch floor at 0), bounded minimization of power_model, and the
percentage gain with its initial_power > 0 guard. -/
def optimize_power (t : Table) (thr yr pr : ℚ) : (Option ℚ × Option ℚ) × Option ℚ :=
  let y0 := initialYaw t
  let p0 := initialPitch t
  let ylo := y0.map (fun v => v - yr)
  let yhi := y0.map (fun v => v + yr)
  let plo := pyMax0 (p0.map (fun v => v - pr))
  let phi := p0.map (fun v => v + pr)
  let res := minimizeBox (fun a b => power_model a b t.rows thr) y0 p0 ylo yhi plo phi
  let ip := initialPower t thr
  let op := oneg res.2
  let gain :=
    match ip with
    | some v => if 0 < v then o2 (fun o i => (o / i - 1) * 100) op (some v) else some 0
    | none => some 0
  (res.1, gain)

/-- The ControlParameters part of the optimizer result. -/
def optimizedParams (t : Table) (thr yr pr : ℚ) : Option ℚ × Option ℚ :=
  (optimize_power t thr yr pr).1

/-- A MetricsSnapshot: average power, efficiency percentage, annual energy. -/
@[ext] structure Metrics where
  avg_power : Option ℚ
  efficiency : Option ℚ
  annual_energy : Option ℚ
deriving DecidableEq, Repr

/-- src/data_processor.py calculate_metrics: current metrics from the column
means (efficiency falls back to 35 when the column is absent), optimized
metrics scaled by the yaw/pitch improvement heuristic, efficiency capped
at 59 by a Python min (whose NaN argument propagates). -/
def calculate_metrics (t : Table) (oyaw opitch : Option ℚ) : Metrics × Metrics :=
  let avg := pmean (t.rows.map Row.power_output)
  let ceff := if t.hasEff then (pmean (t.rows.map Row.efficiency)).map (fun v => v * 100)
              else some 35
  let annual := avg.map (fun v => v * 8760 / 1000)
  let yimp := (pmean (t.rows.map (fun r => o2 (fun a b => |a - b|) r.wind_direction oyaw))).map
    (fun m => 1 + 3 / 1000 * m)
  let pimp := (pmean (t.rows.map (fun r => o2 (fun a b => |a - b|) r.pitch_angle opitch))).map
    (fun m => 1 + 2 / 1000 * m)
  let total := o2 (fun a b => a * b) yimp pimp
  (⟨avg, ceff, annual⟩,
   ⟨o2 (fun a b => a * b) avg total,
    o2 (fun e tt => min (e * tt) 59) ceff total,
    o2 (fun a b => a * b) annual total⟩)

theorem length_interpCol (xs : List (Option ℚ)) : (interpCol xs).length = xs.length := by
  simp [interpCol]

theorem getElem?_interpCol {xs : List (Option ℚ)} {k : ℕ} (h : k < xs.length) :
    (interpCol xs)[k]? = some (interpAt xs k) := by
  simp [interpCol, List.getElem?_map, List.getElem?_range, h]

theorem lastSome_eq_none_iff (l : List (Option ℚ)) :
    lastSome l = none ↔ ∀ a ∈ l, a = none := by
  induction l with
  | nil => simp [lastSome]
  | cons x t ih =>
    cases hx : lastSome t with
    | some p =>
      simp only [lastSome, hx]
      constructor
      · intro h; exact absurd h (by simp)
      · intro h
        have : ∀ a ∈ t, a = none := fun a ha => h a (List.mem_cons_of_mem _ ha)
        rw [← ih] at this; rw [this] at hx; exact absurd hx (by simp)
    | none =>
      cases x with
      | some v =>
        simp only [lastSome, hx]
        constructor
        · intro h; exact absurd h (by simp)
        · intro h; exact absurd (h (some v) (List.mem_cons_self (some v) t)) (by simp)
      | none =>
        simp only [lastSome, hx, Option.map_none']
        constructor
        · intro _ a ha
          rcases List.mem_cons.mp ha with h1 | h2
          · exact h1
          · exact (ih.mp hx) a h2
        · intro _; trivial

theorem firstSome_eq_none_iff (l : List (Option ℚ)) :
    firstSome l = none ↔ ∀ a ∈ l, a = none := by
  induction l with
  | nil => simp [firstSome]
  | cons x t ih =>
    cases x with
    | some v => simp [firstSome]
    | none => simp [firstSome, Option.map_eq_none', ih]

theorem lastSome_eq_of_last (l : List (Option ℚ)) (i : ℕ) (a : ℚ)
    (hi : l[i]? = some (some a))
    (hafter : ∀ j, i < j → j < l.length → l[j]? = some none) :
    lastSome l = some (i, a) := by
  induction l generalizing i with
  | nil => simp at hi
  | cons x t ih =>
    cases i with
    | zero =>
      have hx : x = some a := by simpa using hi
      have ht : lastSome t = none := by
        rw [lastSome_eq_none_iff]
        intro b hb
        obtain ⟨j, hj⟩ := List.mem_iff_getElem?.mp hb
        have hjl : j < t.length := by
          by_contra hc
          rw [List.getElem?_eq_none (le_of_not_lt hc)] at hj
          exact absurd hj (by simp)
        have := hafter (j + 1) (Nat.succ_pos j) (by simpa using hjl)
        simp only [List.getElem?_cons_succ] at this
        rw [hj] at this
        simpa using this
      simp [lastSome, ht, hx]
    | succ n =>
      have h1 : t[n]? = some (some a) := by simpa using hi
      have h2 : ∀ j, n < j → j < t.length → t[j]? = some none := by
        intro j hj hjl
        have := hafter (j + 1) (by omega) (by simpa using hjl)
        simpa using this
      have := ih n h1 h2
      simp [lastSome, this]

theorem interpAt_some {xs : List (Option ℚ)} {k : ℕ} {v : ℚ}
    (h : xs[k]? = some (some v)) : interpAt xs k = some v := by
  simp [interpAt, h]

theorem interpAt_leading {xs : List (Option ℚ)} {k : ℕ}
    (h : ∀ i, i ≤ k → i < xs.length → xs[i]? = some none)
    (hk : k < xs.length) :
    interpAt xs k = none := by
  have hcell : xs[k]? = some none := h k le_rfl hk
  have htake : lastSome (xs.take k) = none := by
    rw [lastSome_eq_none_iff]
    intro b hb
    obtain ⟨j, hj⟩ := List.mem_iff_getElem?.mp hb
    have hjk : j < k := by
      by_contra hc
      have hlen : (xs.take k).length ≤ j := by
        rw [List.length_take]; omega
      rw [List.getElem?_eq_none hlen] at hj
      exact absurd hj (by simp)
    rw [List.getElem?_take_of_lt hjk] at hj
    have := h j (le_of_lt hjk) (lt_trans hjk hk)
    rw [hj] at this
    simpa using this
  simp [interpAt, hcell, htake]

theorem interpAt_trailing {xs : List (Option ℚ)} {i k : ℕ} {a : ℚ}
    (hi : xs[i]? = some (some a))
    (hafter : ∀ j, i < j → j < xs.length → xs[j]? = some none)
    (hik : i < k) (hk : k < xs.length) :
    interpAt xs k = some a := by
  have hcell : xs[k]? = some none := hafter k hik hk
  have htake : lastSome (xs.take k) = some (i, a) := by
    apply lastSome_eq_of_last
    · rw [List.getElem?_take_of_lt hik]; exact hi
    · intro j hj hjl
      have hjk : j < k := by
        have := List.length_take k xs
        omega
      rw [List.getElem?_take_of_lt hjk]
      exact hafter j hj (lt_trans hjk hk)
  have hdrop : firstSome (xs.drop (k + 1)) = none := by
    rw [firstSome_eq_none_iff]
    intro b hb
    obtain ⟨j, hj⟩ := List.mem_iff_getElem?.mp hb
    rw [List.getElem?_drop] at hj
    have hlen : k + 1 + j < xs.length := by
      by_contra hc
      rw [List.getElem?_eq_none (le_of_not_lt hc)] at hj
      exact absurd hj (by simp)
    have := hafter (k + 1 + j) (by omega) hlen
    rw [hj] at this
    simpa using this
  simp [interpAt, hcell, htake, hdrop]

theorem interpAt_eq_none_forces {xs : List (Option ℚ)} {k : ℕ}
    (h : interpAt xs k = none) :
    ∀ i, i ≤ k → i < xs.length → xs[i]? = some none := by
  have htake : lastSome (xs.take k) = none := by
    cases htk : lastSome (xs.take k) with
    | none => rfl
    | some p =>
      exfalso
      cases hcell : xs[k]? with
      | none =>
        cases hdp : firstSome (xs.drop (k + 1)) with
        | none => rw [interpAt, hcell, htk, hdp] at h; simp at h
        | some q => rw [interpAt, hcell, htk, hdp] at h; simp at h
      | some c =>
        cases c with
        | some v => rw [interpAt_some hcell] at h; exact absurd h (by simp)
        | none =>
          cases hdp : firstSome (xs.drop (k + 1)) with
          | none => rw [interpAt, hcell, htk, hdp] at h; simp at h
          | some q => rw [interpAt, hcell, htk, hdp] at h; simp at h
  intro i hik hil
  rcases Nat.lt_or_ge i k with hlt | hge
  · have heq : (xs.take k)[i]? = xs[i]? := List.getElem?_take_of_lt hlt
    cases hgi : xs[i]? with
    | none =>
      have := List.getElem?_eq_getElem hil
      rw [hgi] at this
      exact absurd this (by simp)
    | some c =>
      have hmem : c ∈ xs.take k := by
        apply List.getElem?_mem
        rw [heq, hgi]
      have := (lastSome_eq_none_iff _).mp htake c hmem
      rw [this]
  · have hik2 : i = k := le_antisymm hik hge
    subst hik2
    cases hcell : xs[i]? with
    | none =>
      have := List.getElem?_eq_getElem hil
      rw [hcell] at this
      exact absurd this (by simp)
    | some c =>
      cases c with
      | none => rfl
      | some v => rw [interpAt_some hcell] at h; exact absurd h (by simp)

def ColOK (xs : List (Option ℚ)) : Prop :=
  List.Pairwise (fun a b => b = none → a = none) xs

theorem colOK_of_all_some {l : List (Option ℚ)} (h : ∀ a ∈ l, a ≠ none) : ColOK l := by
  rw [ColOK, List.pairwise_iff_getElem]
  intro i j _ hj hij hbn
  exact absurd hbn (h _ (l.getElem_mem hj))

theorem colOK_sublist {l t : List (Option ℚ)} (hs : l.Sublist t) (h : ColOK t) : ColOK l :=
  List.Pairwise.sublist hs h

theorem colOK_interpCol (xs : List (Option ℚ)) : ColOK (interpCol xs) := by
  rw [ColOK, List.pairwise_iff_getElem]
  intro i j hi hj hij hjn
  have hjl : j < xs.length := by rwa [length_interpCol] at hj
  have hil : i < xs.length := by rwa [length_interpCol] at hi
  have hj2 : (interpCol xs)[j]? = some none := by
    rw [List.getElem?_eq_getElem hj, hjn]
  rw [getElem?_interpCol hjl] at hj2
  have hforce := interpAt_eq_none_forces (by simpa using hj2)
  have hnone : interpAt xs i = none := by
    apply interpAt_leading _ hil
    intro m hmi hml
    exact hforce m (le_trans hmi (le_of_lt hij)) hml
  have hi2 : (interpCol xs)[i]? = some ((interpCol xs)[i]) := List.getElem?_eq_getElem hi
  rw [getElem?_interpCol hil, hnone] at hi2
  exact (Option.some_injective _ hi2).symm

theorem interpCol_eq_self {xs : List (Option ℚ)} (h : ColOK xs) : interpCol xs = xs := by
  apply List.ext_getElem?
  intro k
  by_cases hk : k < xs.length
  · rw [getElem?_interpCol hk]
    cases hcell : xs[k]? with
    | none =>
      have := List.getElem?_eq_getElem hk
      rw [hcell] at this
      exact absurd this (by simp)
    | some c =>
      cases c with
      | some v => rw [interpAt_some hcell]
      | none =>
        rw [interpAt_leading _ hk]
        intro i hik hil
        rcases Nat.lt_or_ge i k with hlt | hge
        · rw [ColOK, List.pairwise_iff_getElem] at h
          have hkget : xs[k] = none := by
            have := List.getElem?_eq_getElem hk
            rw [hcell] at this
            exact (Option.some_injective _ this).symm
          have := h i k hil hk hlt hkget
          rw [List.getElem?_eq_getElem hil, this]
        · have : i = k := le_antisymm hik hge
          subst this
          exact hcell
  · rw [List.getElem?_eq_none (le_of_not_lt hk), List.getElem?_eq_none]
    rw [length_interpCol]; omega

theorem length_interpRows (t : Table) : (interpRows t).length = t.rows.length := by
  simp [interpRows]

theorem map_interpRows_ws (t : Table) :
    (interpRows t).map Row.wind_speed = interpCol (t.rows.map Row.wind_speed) := by
  simp [interpRows, interpCol, List.map_map, Function.comp]

theorem map_interpRows_wd (t : Table) :
    (interpRows t).map Row.wind_direction = interpCol (t.rows.map Row.wind_direction) := by
  simp [interpRows, interpCol, List.map_map, Function.comp]

theorem map_interpRows_pitch (t : Table) :
    (interpRows t).map Row.pitch_angle = interpCol (t.rows.map Row.pitch_angle) := by
  simp [interpRows, interpCol, List.map_map, Function.comp]

theorem range_map_getElem_bind (l : List Row) (g : Row → Option ℚ) :
    (List.range l.length).map (fun k => l[k]?.bind g) = l.map g := by
  induction l with
  | nil => simp
  | cons r t ih =>
    rw [List.length_cons, List.range_succ_eq_map, List.map_cons, List.map_map, List.map_cons]
    congr 1
    · simp
    · rw [← ih]
      apply List.map_congr_left
      intro k _
      simp [Function.comp]

theorem map_interpRows_air (t : Table) :
    (interpRows t).map Row.air_density =
      if t.hasAir then interpCol (t.rows.map Row.air_density) else t.rows.map Row.air_density := by
  cases hA : t.hasAir with
  | true =>
    simp [interpRows, interpField, interpCol, hA, List.map_map, Function.comp]
  | false =>
    simp only [interpRows, interpField, hA, if_false, Bool.false_eq_true, List.map_map]
    rw [← range_map_getElem_bind t.rows Row.air_density]
    apply List.map_congr_left
    intro k _
    simp [Function.comp]

theorem map_interpRows_pow (t : Table) :
    (interpRows t).map Row.power_output =
      if t.hasPower then interpCol (t.rows.map Row.power_output) else t.rows.map Row.power_output := by
  cases hA : t.hasPower with
  | true =>
    simp [interpRows, interpField, interpCol, hA, List.map_map, Function.comp]
  | false =>
    simp only [interpRows, interpField, hA, if_false, Bool.false_eq_true, List.map_map]
    rw [← range_map_getElem_bind t.rows Row.power_output]
    apply List.map_congr_left
    intro k _
    simp [Function.comp]

theorem map_interpRows_theo (t : Table) :
    (interpRows t).map Row.theoretical_power =
      if t.hasTheo then interpCol (t.rows.map Row.theoretical_power)
      else t.rows.map Row.theoretical_power := by
  cases hA : t.hasTheo with
  | true =>
    simp [interpRows, interpField, interpCol, hA, List.map_map, Function.comp]
  | false =>
    simp only [interpRows, interpField, hA, if_false, Bool.false_eq_true, List.map_map]
    rw [← range_map_getElem_bind t.rows Row.theoretical_power]
    apply List.map_congr_left
    intro k _
    simp [Function.comp]

theorem map_interpRows_eff (t : Table) :
    (interpRows t).map Row.efficiency =
      if t.hasEff then interpCol (t.rows.map Row.efficiency)
      else t.rows.map Row.efficiency := by
  cases hA : t.hasEff with
  | true =>
    simp [interpRows, interpField, interpCol, hA, List.map_map, Function.comp]
  | false =>
    simp only [interpRows, interpField, hA, if_false, Bool.false_eq_true, List.map_map]
    rw [← range_map_getElem_bind t.rows Row.efficiency]
    apply List.map_congr_left
    intro k _
    simp [Function.comp]

theorem filtRows_sublist (x : Table) : (filtRows x).Sublist (interpRows x) := by
  unfold filtRows
  cases x.hasPower with
  | true =>
    simp only [if_true]
    exact ((List.filter_sublist _).trans (List.filter_sublist _)).trans (List.filter_sublist _)
  | false =>
    simp only [Bool.false_eq_true, if_false]
    exact (List.filter_sublist _).trans (List.filter_sublist _)

theorem mem_filtRows_ws {x : Table} {r : Row} (h : r ∈ filtRows x) :
    wsLo r = true ∧ wsHi r = true := by
  unfold filtRows at h
  cases hp : x.hasPower with
  | true =>
    simp only [hp, eq_self_iff_true, if_true] at h
    have h2 := (List.mem_filter.mp h).1
    exact ⟨(List.mem_filter.mp (List.mem_filter.mp h2).1).2, (List.mem_filter.mp h2).2⟩
  | false =>
    rw [hp] at h
    simp only [Bool.false_eq_true, if_false] at h
    exact ⟨(List.mem_filter.mp (List.mem_filter.mp h).1).2, (List.mem_filter.mp h).2⟩

theorem mem_filtRows_pow {x : Table} {r : Row} (hp : x.hasPower = true) (h : r ∈ filtRows x) :
    powNonneg r = true := by
  unfold filtRows at h
  simp only [hp, eq_self_iff_true, if_true] at h
  exact (List.mem_filter.mp h).2

theorem wsLo_spec {r : Row} (h : wsLo r = true) : ∃ v, r.wind_speed = some v ∧ 0 ≤ v := by
  unfold wsLo at h
  cases hw : r.wind_speed with
  | none => rw [hw] at h; simp at h
  | some v => rw [hw] at h; exact ⟨v, rfl, by simpa using h⟩

theorem wsHi_spec {r : Row} (h : wsHi r = true) : ∃ v, r.wind_speed = some v ∧ v ≤ 50 := by
  unfold wsHi at h
  cases hw : r.wind_speed with
  | none => rw [hw] at h; simp at h
  | some v => rw [hw] at h; exact ⟨v, rfl, by simpa using h⟩

theorem powNonneg_spec {r : Row} (h : powNonneg r = true) :
    ∃ v, r.power_output = some v ∧ 0 ≤ v := by
  unfold powNonneg at h
  cases hw : r.power_output with
  | none => rw [hw] at h; simp at h
  | some v => rw [hw] at h; exact ⟨v, rfl, by simpa using h⟩

theorem wsLo_congr {r s : Row} (h : r.wind_speed = s.wind_speed) : wsLo r = wsLo s := by
  unfold wsLo; rw [h]

theorem wsHi_congr {r s : Row} (h : r.wind_speed = s.wind_speed) : wsHi r = wsHi s := by
  unfold wsHi; rw [h]

theorem powNonneg_congr {r s : Row} (h : r.power_output = s.power_output) :
    powNonneg r = powNonneg s := by
  unfold powNonneg; rw [h]

theorem derive_ws (hp : Bool) (r : Row) : (derive hp r).wind_speed = r.wind_speed := rfl

theorem derive_wd (hp : Bool) (r : Row) : (derive hp r).wind_direction = r.wind_direction := rfl

theorem derive_air (hp : Bool) (r : Row) : (derive hp r).air_density = r.air_density := rfl

theorem derive_pow (hp : Bool) (r : Row) : (derive hp r).power_output = r.power_output := rfl

theorem derive_pitch (hp : Bool) (r : Row) : (derive hp r).pitch_angle = r.pitch_angle := rfl

theorem derive_theo (hp : Bool) (r : Row) : (derive hp r).theoretical_power = theoOf r := rfl

theorem derive_eff_false (r : Row) : (derive false r).efficiency = r.efficiency := rfl

theorem derive_eff_true (r : Row) :
    (derive true r).efficiency = effOf r.power_output (theoOf r) := rfl

theorem theoOf_congr {r s : Row} (h1 : r.wind_speed = s.wind_speed)
    (h3 : r.air_density = s.air_density) : theoOf r = theoOf s := by
  unfold theoOf; rw [h1, h3]

theorem derive_derive (hp : Bool) (r : Row) : derive hp (derive hp r) = derive hp r := by
  cases hp with
  | false =>
    apply Row.ext <;>
      simp [derive_ws, derive_wd, derive_air, derive_pow, derive_pitch, derive_theo,
        derive_eff_false]
    exact theoOf_congr (derive_ws false r) (derive_air false r)
  | true =>
    apply Row.ext <;>
      simp [derive_ws, derive_wd, derive_air, derive_pow, derive_pitch, derive_theo,
        derive_eff_true]
    · exact theoOf_congr (derive_ws true r) (derive_air true r)
    · rw [theoOf_congr (derive_ws true r) (derive_air true r)]

theorem derive_true_congr {r s : Row}
    (h1 : r.wind_speed = s.wind_speed) (h2 : r.wind_direction = s.wind_direction)
    (h3 : r.air_density = s.air_density) (h4 : r.power_output = s.power_output)
    (h5 : r.pitch_angle = s.pitch_angle) :
    derive true r = derive true s := by
  apply Row.ext <;>
    simp [derive_ws, derive_wd, derive_air, derive_pow, derive_pitch, derive_theo,
      derive_eff_true, h1, h2, h3, h4, h5]
  · exact theoOf_congr h1 h3
  · rw [theoOf_congr h1 h3]

theorem o2_eq_none_iff (f : ℚ → ℚ → ℚ) (a b : Option ℚ) :
    o2 f a b = none ↔ a = none ∨ b = none := by
  cases a <;> cases b <;> simp [o2]

theorem colOK_theoOf {l : List Row}
    (hws : ∀ r ∈ l, r.wind_speed ≠ none)
    (hair : ColOK (l.map Row.air_density)) :
    ColOK (l.map (fun r => theoOf r)) := by
  rw [ColOK, List.pairwise_map]
  rw [ColOK, List.pairwise_map] at hair
  apply List.Pairwise.imp_of_mem _ hair
  intro a b ha hb hab htb
  rw [theoOf, o2_eq_none_iff] at htb ⊢
  rcases htb with h | h
  · exact Or.inl (hab h)
  · exact absurd h (hws b hb)

theorem map_proj_getElem {l t : List Row} {g : Row → Option ℚ} (h : l.map g = t.map g)
    {k : ℕ} (hk : k < l.length) (hk2 : k < t.length) : g l[k] = g t[k] := by
  have h2 := congrArg (fun z => z[k]?) h
  simp only [List.getElem?_map] at h2
  rw [List.getElem?_eq_getElem hk, List.getElem?_eq_getElem hk2] at h2
  simpa using h2

theorem rowList_ext {l t : List Row} (hlen : l.length = t.length)
    (h1 : l.map Row.wind_speed = t.map Row.wind_speed)
    (h2 : l.map Row.wind_direction = t.map Row.wind_direction)
    (h3 : l.map Row.air_density = t.map Row.air_density)
    (h4 : l.map Row.power_output = t.map Row.power_output)
    (h5 : l.map Row.pitch_angle = t.map Row.pitch_angle)
    (h6 : l.map Row.theoretical_power = t.map Row.theoretical_power)
    (h7 : l.map Row.efficiency = t.map Row.efficiency) :
    l = t := by
  apply List.ext_getElem?
  intro k
  by_cases hk : k < l.length
  · have hk2 : k < t.length := hlen ▸ hk
    rw [List.getElem?_eq_getElem hk, List.getElem?_eq_getElem hk2]
    congr 1
    exact Row.ext (map_proj_getElem h1 hk hk2) (map_proj_getElem h2 hk hk2)
      (map_proj_getElem h3 hk hk2) (map_proj_getElem h4 hk hk2)
      (map_proj_getElem h5 hk hk2) (map_proj_getElem h6 hk hk2)
      (map_proj_getElem h7 hk hk2)
  · rw [List.getElem?_eq_none (le_of_not_lt hk), List.getElem?_eq_none (by omega)]

theorem process_data_rows (x : Table) : (process_data x).rows = cleanRows x := by
  cases hA : x.hasAir <;> simp [process_data, hA]

theorem process_data_hasPower (x : Table) : (process_data x).hasPower = x.hasPower := by
  cases hA : x.hasAir <;> simp [process_data, hA]

theorem process_data_hasAir (x : Table) : (process_data x).hasAir = x.hasAir := by
  cases hA : x.hasAir <;> simp [process_data, hA]

theorem process_data_hasTheo (x : Table) :
    (process_data x).hasTheo = (if x.hasAir then true else x.hasTheo) := by
  cases hA : x.hasAir <;> simp [process_data, hA]

theorem process_data_hasEff (x : Table) :
    (process_data x).hasEff = (if x.hasAir then x.hasEff || x.hasPower else x.hasEff) := by
  cases hA : x.hasAir <;> simp [process_data, hA]

theorem colOK_filt_col {x : Table} {g : Row → Option ℚ}
    (hproj : (interpRows x).map g = interpCol (x.rows.map g)) :
    ColOK ((filtRows x).map g) := by
  apply colOK_sublist (List.Sublist.map g (filtRows_sublist x))
  rw [hproj]
  exact colOK_interpCol _

theorem all_some_ws_filt {x : Table} : ∀ r ∈ filtRows x, r.wind_speed ≠ none := by
  intro r hr
  obtain ⟨v, hv, _⟩ := wsLo_spec (mem_filtRows_ws hr).1
  rw [hv]
  simp

theorem all_some_pow_filt {x : Table} (hp : x.hasPower = true) :
    ∀ r ∈ filtRows x, r.power_output ≠ none := by
  intro r hr
  obtain ⟨v, hv, _⟩ := powNonneg_spec (mem_filtRows_pow hp hr)
  rw [hv]
  simp

theorem map_cleanRows_of_derive_inv {x : Table} {g : Row → Option ℚ}
    (hg : ∀ hp r, g (derive hp r) = g r) :
    (cleanRows x).map g = (filtRows x).map g := by
  unfold cleanRows
  cases hA : x.hasAir with
  | true =>
    simp only [eq_self_iff_true, if_true, List.map_map]
    apply List.map_congr_left
    intro r _
    exact hg x.hasPower r
  | false => simp

theorem mem_cleanRows_ws {x : Table} {r : Row} (h : r ∈ cleanRows x) :
    wsLo r = true ∧ wsHi r = true := by
  unfold cleanRows at h
  cases hA : x.hasAir with
  | true =>
    rw [hA] at h
    simp only [eq_self_iff_true, if_true] at h
    obtain ⟨r0, hr0, hr⟩ := List.mem_map.mp h
    have := mem_filtRows_ws hr0
    rw [← hr]
    rw [wsLo_congr (derive_ws x.hasPower r0), wsHi_congr (derive_ws x.hasPower r0)]
    exact this
  | false =>
    rw [hA] at h
    simp only [Bool.false_eq_true, if_false] at h
    exact mem_filtRows_ws h

theorem mem_cleanRows_pow {x : Table} {r : Row} (hp : x.hasPower = true) (h : r ∈ cleanRows x) :
    powNonneg r = true := by
  unfold cleanRows at h
  cases hA : x.hasAir with
  | true =>
    rw [hA] at h
    simp only [eq_self_iff_true, if_true] at h
    obtain ⟨r0, hr0, hr⟩ := List.mem_map.mp h
    rw [← hr, powNonneg_congr (derive_pow x.hasPower r0)]
    exact mem_filtRows_pow hp hr0
  | false =>
    rw [hA] at h
    simp only [Bool.false_eq_true, if_false] at h
    exact mem_filtRows_pow hp h

theorem forall_mem_of_col {g : Row → Option ℚ} {p : Row → Bool}
    (hcong : ∀ r s : Row, g r = g s → p r = p s)
    {l t : List Row} (hcol : l.map g = t.map g) (hgood : ∀ r ∈ t, p r = true) :
    ∀ r ∈ l, p r = true := by
  intro r hr
  have hmem : g r ∈ t.map g := hcol ▸ List.mem_map_of_mem g hr
  obtain ⟨s, hs, hgs⟩ := List.mem_map.mp hmem
  rw [hcong r s hgs.symm]
  exact hgood s hs

theorem fix_ws (x : Table) :
    (interpRows (process_data x)).map Row.wind_speed =
      (process_data x).rows.map Row.wind_speed := by
  rw [map_interpRows_ws]
  apply interpCol_eq_self
  apply colOK_of_all_some
  intro a ha
  rw [process_data_rows] at ha
  obtain ⟨r, hr, ha2⟩ := List.mem_map.mp ha
  obtain ⟨v, hv, _⟩ := wsLo_spec (mem_cleanRows_ws hr).1
  rw [← ha2, hv]
  simp

theorem fix_wd (x : Table) :
    (interpRows (process_data x)).map Row.wind_direction =
      (process_data x).rows.map Row.wind_direction := by
  rw [map_interpRows_wd]
  apply interpCol_eq_self
  rw [process_data_rows, map_cleanRows_of_derive_inv derive_wd]
  exact colOK_filt_col (map_interpRows_wd x)

theorem fix_pitch (x : Table) :
    (interpRows (process_data x)).map Row.pitch_angle =
      (process_data x).rows.map Row.pitch_angle := by
  rw [map_interpRows_pitch]
  apply interpCol_eq_self
  rw [process_data_rows, map_cleanRows_of_derive_inv derive_pitch]
  exact colOK_filt_col (map_interpRows_pitch x)

theorem fix_air (x : Table) :
    (interpRows (process_data x)).map Row.air_density =
      (process_data x).rows.map Row.air_density := by
  rw [map_interpRows_air]
  cases hA : (process_data x).hasAir with
  | false => simp
  | true =>
    simp only [eq_self_iff_true, if_true]
    apply interpCol_eq_self
    have hxA : x.hasAir = true := by rwa [process_data_hasAir] at hA
    have hproj := map_interpRows_air x
    rw [hxA] at hproj
    simp only [eq_self_iff_true, if_true] at hproj
    rw [process_data_rows, map_cleanRows_of_derive_inv derive_air]
    exact colOK_filt_col hproj

theorem fix_pow (x : Table) :
    (interpRows (process_data x)).map Row.power_output =
      (process_data x).rows.map Row.power_output := by
  rw [map_interpRows_pow]
  cases hP : (process_data x).hasPower with
  | false => simp
  | true =>
    simp only [eq_self_iff_true, if_true]
    apply interpCol_eq_self
    have hxP : x.hasPower = true := by rwa [process_data_hasPower] at hP
    apply colOK_of_all_some
    intro a ha
    rw [process_data_rows] at ha
    obtain ⟨r, hr, ha2⟩ := List.mem_map.mp ha
    obtain ⟨v, hv, _⟩ := powNonneg_spec (mem_cleanRows_pow hxP hr)
    rw [← ha2, hv]
    simp

theorem map_cleanRows_theo_air {x : Table} (hA : x.hasAir = true) :
    (cleanRows x).map Row.theoretical_power = (filtRows x).map (fun r => theoOf r) := by
  unfold cleanRows
  rw [hA]
  simp only [eq_self_iff_true, if_true, List.map_map]
  apply List.map_congr_left
  intro r _
  simp only [Function.comp_apply]
  exact derive_theo x.hasPower r

theorem fix_theo (x : Table) :
    (interpRows (process_data x)).map Row.theoretical_power =
      (process_data x).rows.map Row.theoretical_power := by
  rw [map_interpRows_theo]
  cases hT : (process_data x).hasTheo with
  | false => simp
  | true =>
    simp only [eq_self_iff_true, if_true]
    apply interpCol_eq_self
    rw [process_data_rows]
    cases hxA : x.hasAir with
    | true =>
      rw [map_cleanRows_theo_air hxA]
      apply colOK_theoOf all_some_ws_filt
      have hproj := map_interpRows_air x
      rw [hxA] at hproj
      simp only [eq_self_iff_true, if_true] at hproj
      exact colOK_filt_col hproj
    | false =>
      have hxT : x.hasTheo = true := by
        rw [process_data_hasTheo, hxA] at hT
        simpa using hT
      unfold cleanRows
      rw [hxA]
      simp only [Bool.false_eq_true, if_false]
      have hproj := map_interpRows_theo x
      rw [hxT] at hproj
      simp only [eq_self_iff_true, if_true] at hproj
      exact colOK_filt_col hproj

theorem fix_eff (x : Table) (hnd : ¬(x.hasAir = true ∧ x.hasPower = true)) :
    (interpRows (process_data x)).map Row.efficiency =
      (process_data x).rows.map Row.efficiency := by
  rw [map_interpRows_eff]
  cases hE : (process_data x).hasEff with
  | false => simp
  | true =>
    simp only [eq_self_iff_true, if_true]
    apply interpCol_eq_self
    rw [process_data_rows]
    have hxE : x.hasEff = true := by
      rw [process_data_hasEff] at hE
      cases hxA : x.hasAir with
      | false => rw [hxA] at hE; simpa using hE
      | true =>
        cases hxP : x.hasPower with
        | true => exact absurd ⟨hxA, hxP⟩ hnd
        | false => rw [hxA, hxP] at hE; simpa using hE
    have hproj := map_interpRows_eff x
    rw [hxE] at hproj
    simp only [eq_self_iff_true, if_true] at hproj
    cases hxA : x.hasAir with
    | false =>
      unfold cleanRows
      rw [hxA]
      simp only [Bool.false_eq_true, if_false]
      exact colOK_filt_col hproj
    | true =>
      cases hxP : x.hasPower with
      | true => exact absurd ⟨hxA, hxP⟩ hnd
      | false =>
        unfold cleanRows
        rw [hxA, hxP]
        simp only [eq_self_iff_true, if_true, List.map_map]
        have hcol : (List.map (Row.efficiency ∘ derive false) (filtRows x)) =
            (filtRows x).map Row.efficiency := by
          apply List.map_congr_left
          intro r _
          simp only [Function.comp_apply]
          exact derive_eff_false r
        rw [hcol]
        exact colOK_filt_col hproj

theorem interpRows_fix {x : Table} (hnd : ¬(x.hasAir = true ∧ x.hasPower = true)) :
    interpRows (process_data x) = (process_data x).rows :=
  rowList_ext (length_interpRows _) (fix_ws x) (fix_wd x) (fix_air x) (fix_pow x)
    (fix_pitch x) (fix_theo x) (fix_eff x hnd)

theorem filtRows_fix (x : Table) : filtRows (process_data x) = interpRows (process_data x) := by
  have hws : ∀ r ∈ interpRows (process_data x), wsLo r = true := by
    apply forall_mem_of_col (fun r s h => wsLo_congr h) (fix_ws x)
    intro r hr
    rw [process_data_rows] at hr
    exact (mem_cleanRows_ws hr).1
  have hwsHi : ∀ r ∈ interpRows (process_data x), wsHi r = true := by
    apply forall_mem_of_col (fun r s h => wsHi_congr h) (fix_ws x)
    intro r hr
    rw [process_data_rows] at hr
    exact (mem_cleanRows_ws hr).2
  unfold filtRows
  cases hP : (process_data x).hasPower with
  | false =>
    simp only [Bool.false_eq_true, if_false]
    rw [List.filter_eq_self.mpr hws, List.filter_eq_self.mpr hwsHi]
  | true =>
    simp only [eq_self_iff_true, if_true]
    have hxP : x.hasPower = true := by rwa [process_data_hasPower] at hP
    have hpw : ∀ r ∈ interpRows (process_data x), powNonneg r = true := by
      apply forall_mem_of_col (fun r s h => powNonneg_congr h) (fix_pow x)
      intro r hr
      rw [process_data_rows] at hr
      exact mem_cleanRows_pow hxP hr
    rw [List.filter_eq_self.mpr hws, List.filter_eq_self.mpr hwsHi,
      List.filter_eq_self.mpr hpw]

theorem map_derive_true_congr {l t : List Row} (hlen : l.length = t.length)
    (h1 : l.map Row.wind_speed = t.map Row.wind_speed)
    (h2 : l.map Row.wind_direction = t.map Row.wind_direction)
    (h3 : l.map Row.air_density = t.map Row.air_density)
    (h4 : l.map Row.power_output = t.map Row.power_output)
    (h5 : l.map Row.pitch_angle = t.map Row.pitch_angle) :
    l.map (derive true) = t.map (derive true) := by
  apply List.ext_getElem?
  intro k
  rw [List.getElem?_map, List.getElem?_map]
  by_cases hk : k < l.length
  · have hk2 : k < t.length := hlen ▸ hk
    rw [List.getElem?_eq_getElem hk, List.getElem?_eq_getElem hk2]
    simp only [Option.map_some']
    congr 1
    exact derive_true_congr (map_proj_getElem h1 hk hk2) (map_proj_getElem h2 hk hk2)
      (map_proj_getElem h3 hk hk2) (map_proj_getElem h4 hk hk2)
      (map_proj_getElem h5 hk hk2)
  · rw [List.getElem?_eq_none (le_of_not_lt hk), List.getElem?_eq_none (by omega)]

theorem map_derive_cleanRows {x : Table} (hA : x.hasAir = true) :
    (cleanRows x).map (derive x.hasPower) = cleanRows x := by
  unfold cleanRows
  rw [hA]
  simp only [eq_self_iff_true, if_true, List.map_map]
  apply List.map_congr_left
  intro r _
  simp only [Function.comp_apply]
  exact derive_derive x.hasPower r

theorem cleanRows_fix (x : Table) : cleanRows (process_data x) = (process_data x).rows := by
  unfold cleanRows
  cases hyA : (process_data x).hasAir with
  | false =>
    simp only [Bool.false_eq_true, if_false]
    rw [filtRows_fix]
    apply interpRows_fix
    have hxA : x.hasAir = false := by rwa [process_data_hasAir] at hyA
    rintro ⟨h1, _⟩
    rw [hxA] at h1
    cases h1
  | true =>
    simp only [eq_self_iff_true, if_true]
    rw [filtRows_fix]
    have hxA : x.hasAir = true := by rwa [process_data_hasAir] at hyA
    have hyP : (process_data x).hasPower = x.hasPower := process_data_hasPower x
    cases hxP : x.hasPower with
    | false =>
      rw [interpRows_fix (by rintro ⟨_, h⟩; rw [hxP] at h; cases h)]
      rw [hyP, hxP, process_data_rows]
      have hmap := map_derive_cleanRows hxA
      rw [hxP] at hmap
      exact hmap
    | true =>
      rw [hyP, hxP]
      have hmd := map_derive_true_congr (length_interpRows _) (fix_ws x) (fix_wd x)
        (fix_air x) (fix_pow x) (fix_pitch x)
      rw [hmd, process_data_rows]
      have hmap := map_derive_cleanRows hxA
      rw [hxP] at hmap
      exact hmap

theorem process_data_eq_self {t : Table} (hrows : cleanRows t = t.rows)
    (hTheo : t.hasAir = true → t.hasTheo = true)
    (hEff : t.hasAir = true → (t.hasEff || t.hasPower) = t.hasEff) :
    process_data t = t := by
  unfold process_data
  cases hA : t.hasAir with
  | false =>
    simp only [Bool.false_eq_true, if_false]
    apply Table.ext
    · rfl
    · exact hA.symm
    · rfl
    · rfl
    · exact hrows
  | true =>
    simp only [eq_self_iff_true, if_true]
    apply Table.ext
    · rfl
    · exact hA.symm
    · exact (hTheo hA).symm
    · exact hEff hA
    · exact hrows

/-- Claim C7: cleaning is idempotent: a second pass over an already cleaned table
drops no row and derives the same values. -/
theorem process_data_idempotent (x : Table) :
    process_data (process_data x) = process_data x := by
  apply process_data_eq_self (cleanRows_fix x)
  · intro hA
    rw [process_data_hasAir] at hA
    rw [process_data_hasTheo, hA]
    simp
  · intro hA
    rw [process_data_hasAir] at hA
    rw [process_data_hasEff, process_data_hasPower, hA]
    simp only [eq_self_iff_true, if_true]
    cases x.hasEff <;> cases x.hasPower <;> rfl

theorem xclip_spec {lo hi : ℚ} (hlohi : lo ≤ hi) (u : XVal) {v : ℚ}
    (h : xclip lo hi u = some v) : lo ≤ v ∧ v ≤ hi := by
  cases u with
  | num q =>
    simp only [xclip] at h
    have hv : v = max lo (min hi q) := (Option.some_injective _ h).symm
    subst hv
    exact ⟨le_max_left _ _, max_le hlohi (min_le_left _ _)⟩
  | pinf =>
    simp only [xclip] at h
    have hv : v = hi := (Option.some_injective _ h).symm
    subst hv
    exact ⟨hlohi, le_rfl⟩
  | ninf =>
    simp only [xclip] at h
    have hv : v = lo := (Option.some_injective _ h).symm
    subst hv
    exact ⟨le_rfl, hlohi⟩
  | nan => simp [xclip] at h

theorem mem_relevantRows {rows : List Row} {thr : ℚ} {r : Row}
    (h : r ∈ relevantRows rows thr) :
    r ∈ rows ∧ ∃ w, r.wind_speed = some w ∧ thr ≤ w := by
  unfold relevantRows at h
  have h2 := List.mem_filter.mp h
  refine ⟨h2.1, ?_⟩
  have hpred := h2.2
  cases hw : r.wind_speed with
  | none => rw [hw] at hpred; simp at hpred
  | some w =>
    rw [hw] at hpred
    exact ⟨w, rfl, by simpa using hpred⟩

theorem somes_map_some {α : Type} (l : List α) (f : α → ℚ) :
    somes (l.map (fun a => some (f a))) = l.map f := by
  induction l with
  | nil => simp [somes]
  | cons a t ih => simp [somes, ih]

/-- The arithmetic mean of a list of rationals, as the spec words it. -/
def specMean (l : List ℚ) : ℚ := l.sum / ((l.length : ℕ) : ℚ)

theorem pmean_map_some {α : Type} (l : List α) (f : α → ℚ) (hl : l ≠ []) :
    pmean (l.map (fun a => some (f a))) = some (specMean (l.map f)) := by
  cases l with
  | nil => exact absurd rfl hl
  | cons a t =>
    unfold pmean specMean
    rw [somes_map_some]
    simp

theorem pmean_col {l : List Row} {g : Row → Option ℚ} (hne : l ≠ [])
    (hs : ∀ r ∈ l, g r ≠ none) :
    pmean (l.map g) = some (specMean (l.map (fun r => (g r).getD 0))) := by
  have hmap : l.map g = l.map (fun r => some ((g r).getD 0)) := by
    apply List.map_congr_left
    intro r hr
    cases hg : g r with
    | none => exact absurd hg (hs r hr)
    | some v => simp
  rw [hmap, pmean_map_some _ _ hne]

/-- Claim C6: when no row reaches the wind-speed threshold, the power model
returns exactly 0 instead of raising. -/
theorem power_model_no_relevant_rows (rows : List Row) (thr : ℚ) (yaw pitch : Option ℚ)
    (h : ∀ r ∈ rows, ∀ v, r.wind_speed = some v → v < thr) :
    power_model yaw pitch rows thr = some 0 := by
  have hrel : relevantRows rows thr = [] := by
    rw [relevantRows, List.filter_eq_nil_iff]
    intro r hr
    cases hw : r.wind_speed with
    | none => simp
    | some v =>
      simp only [decide_eq_true_eq]
      exact not_le.mpr (h r hr v hw)
  simp [power_model, hrel]

/-- Spec wording of the yaw misalignment. -/
def specMisalignment (wdv ya : ℚ) : ℚ :=
  if 180 < |wdv - ya| then 360 - |wdv - ya| else |wdv - ya|

/-- Spec wording of the per-row power proxy. -/
def specRowProxy (ya pa : ℚ) (r : Row) : ℚ :=
  (r.wind_speed.getD 0) ^ 3 * (1 / 2) * (r.air_density.getD 0) * (1 / 2)
    * (1 - 1 / 100 * specMisalignment (r.wind_direction.getD 0) ya)
    * (1 - 2 / 100 * |pa - (r.pitch_angle.getD 0)|)

/-- Claim C1: on any dataset with at least one relevant row and defined inputs, the
power model is the negated mean of the per-row proxy, and the wrap-around
example evaluates to 20. -/
theorem power_model_mean_formula (rows : List Row) (thr ya pa : ℚ)
    (hne : relevantRows rows thr ≠ [])
    (hdef : ∀ r ∈ relevantRows rows thr,
      r.wind_direction ≠ none ∧ r.air_density ≠ none ∧ r.pitch_angle ≠ none) :
    power_model (some ya) (some pa) rows thr =
      some (-(specMean ((relevantRows rows thr).map (specRowProxy ya pa)))) ∧
    yawMisalignment 350 10 = 20 := by
  constructor
  · have hmap : (relevantRows rows thr).map (rowPower (some ya) (some pa)) =
        (relevantRows rows thr).map (fun r => some (specRowProxy ya pa r)) := by
      apply List.map_congr_left
      intro r hr
      obtain ⟨hwd, hair, hpit⟩ := hdef r hr
      obtain ⟨_, w, hw, _⟩ := mem_relevantRows hr
      obtain ⟨wdv, hwdv⟩ := Option.ne_none_iff_exists'.mp hwd
      obtain ⟨d, hd⟩ := Option.ne_none_iff_exists'.mp hair
      obtain ⟨pv, hpv⟩ := Option.ne_none_iff_exists'.mp hpit
      simp only [rowPower, hw, hwdv, hd, hpv, specRowProxy, specMisalignment,
        yawMisalignment, Option.getD_some]
    have hemp : (relevantRows rows thr).isEmpty = false := by
      cases hrel : relevantRows rows thr with
      | nil => exact absurd hrel hne
      | cons a t => rfl
    simp only [power_model, hemp, Bool.false_eq_true, if_false]
    rw [hmap, pmean_map_some _ _ hne]
    rfl
  · have habs : |(350 : ℚ) - 10| = 340 := by
      rw [show (350 : ℚ) - 10 = 340 by norm_num, abs_of_nonneg (by norm_num)]
    simp only [yawMisalignment, habs]
    norm_num

/-- Claim C5: the gain is the guarded percentage formula: 0 when initial_power is
NaN or nonpositive, otherwise the ratio against the power model at the
returned parameters, whose divisor is then nonzero. -/
theorem optimize_power_gain_formula (t : Table) (thr yr pr : ℚ) :
    (initialPower t thr = none → (optimize_power t thr yr pr).2 = some 0) ∧
    (∀ v, initialPower t thr = some v → v ≤ 0 → (optimize_power t thr yr pr).2 = some 0) ∧
    (∀ v, initialPower t thr = some v → 0 < v →
      v ≠ 0 ∧
      (optimize_power t thr yr pr).2 =
        o2 (fun o i => (o / i - 1) * 100)
          (oneg (power_model (optimizedParams t thr yr pr).1 (optimizedParams t thr yr pr).2
            t.rows thr)) (some v)) := by
  refine ⟨?_, ?_, ?_⟩
  · intro h
    simp [optimize_power, minimizeBox, h]
  · intro v h hle
    simp [optimize_power, minimizeBox, h, not_lt.mpr hle]
  · intro v h hpos
    refine ⟨ne_of_gt hpos, ?_⟩
    simp [optimize_power, optimizedParams, minimizeBox, h, hpos]

/-- Claim C3 as amended: on a dataset with defined column means and a nonempty pitch
box, the returned parameters lie within the computed bounds inclusive. -/
theorem optimize_power_respects_bounds (t : Table) (thr yr pr : ℚ) (y0 p0 : ℚ)
    (hyr : 0 ≤ yr)
    (hy : initialYaw t = some y0) (hp : initialPitch t = some p0)
    (hbox : max 0 (p0 - pr) ≤ p0 + pr) :
    ∃ ry rp, (optimize_power t thr yr pr).1 = (some ry, some rp) ∧
      y0 - yr ≤ ry ∧ ry ≤ y0 + yr ∧ max 0 (p0 - pr) ≤ rp ∧ rp ≤ p0 + pr := by
  refine ⟨min (y0 + yr) (max (y0 - yr) y0), min (p0 + pr) (max (max 0 (p0 - pr)) p0),
    ?_, ?_, ?_, ?_, ?_⟩
  · simp [optimize_power, minimizeBox, oclamp, pyMax0, hy, hp]
  · exact le_min (by linarith) (le_max_left _ _)
  · exact min_le_left _ _
  · exact le_min hbox (le_max_left _ _)
  · exact min_le_left _ _

/-- Claim C2 as amended: after cleaning a raw table (one with no preexisting
efficiency column), wind_speed lies in the range 0 to 50 on every row,
power_output is nonnegative when that column exists, and every defined
efficiency value lies between 0 and the Betz limit 0.59; efficiency can
also be NaN (from a 0/0 division or missing air_density). -/
theorem process_data_invariants (x : Table) (hx : x.hasEff = false) :
    (∀ r ∈ (process_data x).rows, ∃ v, r.wind_speed = some v ∧ 0 ≤ v ∧ v ≤ 50) ∧
    (x.hasPower = true → ∀ r ∈ (process_data x).rows, ∃ v, r.power_output = some v ∧ 0 ≤ v) ∧
    ((process_data x).hasEff = true → ∀ r ∈ (process_data x).rows,
      ∀ v, r.efficiency = some v → 0 ≤ v ∧ v ≤ 59 / 100) := by
  refine ⟨?_, ?_, ?_⟩
  · intro r hr
    rw [process_data_rows] at hr
    obtain ⟨hlo, hhi⟩ := mem_cleanRows_ws hr
    obtain ⟨v, hv, h0⟩ := wsLo_spec hlo
    obtain ⟨w, hw, h50⟩ := wsHi_spec hhi
    rw [hv] at hw
    exact ⟨v, hv, h0, by rw [Option.some_injective _ hw]; exact h50⟩
  · intro hxP r hr
    rw [process_data_rows] at hr
    exact powNonneg_spec (mem_cleanRows_pow hxP hr)
  · intro hE r hr v hv
    rw [process_data_hasEff] at hE
    have hAP : x.hasAir = true ∧ x.hasPower = true := by
      cases hA : x.hasAir with
      | false => rw [hA, hx] at hE; simp at hE
      | true =>
        cases hP : x.hasPower with
        | false => rw [hA, hx, hP] at hE; simp at hE
        | true => exact ⟨rfl, rfl⟩
    rw [process_data_rows] at hr
    unfold cleanRows at hr
    rw [hAP.1] at hr
    simp only [eq_self_iff_true, if_true] at hr
    obtain ⟨r0, _, hr0⟩ := List.mem_map.mp hr
    rw [hAP.2] at hr0
    have heff : r.efficiency = effOf r0.power_output (theoOf r0) := by
      rw [← hr0, derive_eff_true]
    rw [heff] at hv
    exact xclip_spec (by norm_num) _ hv

/-- Claim C9 as amended: gaps before the first valid value stay missing, gaps after
the last valid value are filled with that value (not left missing), interior
gaps are filled, the column keeps its length, and the cleaning step applies
this columnwise interpolation. -/
theorem interpolate_gap_policy :
    (∀ (t : Table), (interpRows t).map Row.wind_direction =
        interpCol (t.rows.map Row.wind_direction)) ∧
    (∀ (xs : List (Option ℚ)), (interpCol xs).length = xs.length) ∧
    (∀ (xs : List (Option ℚ)) (k : ℕ), k < xs.length →
      (∀ i, i ≤ k → xs[i]? = some none) → (interpCol xs)[k]? = some none) ∧
    (∀ (xs : List (Option ℚ)) (i k : ℕ) (a : ℚ), xs[i]? = some (some a) →
      (∀ j, i < j → j < xs.length → xs[j]? = some none) →
      i < k → k < xs.length → (interpCol xs)[k]? = some (some a)) := by
  refine ⟨map_interpRows_wd, length_interpCol, ?_, ?_⟩
  · intro xs k hk h
    rw [getElem?_interpCol hk, interpAt_leading (fun i hik _ => h i hik) hk]
  · intro xs i k a hi hafter hik hk
    rw [getElem?_interpCol hk, interpAt_trailing hi hafter hik hk]

theorem o2_some_getD {g : Row → Option ℚ} {r : Row} {c : ℚ} (h : g r ≠ none)
    (f : ℚ → ℚ → ℚ) : o2 f (g r) (some c) = some (f ((g r).getD 0) c) := by
  cases hg : g r with
  | none => exact absurd hg h
  | some v => simp [o2]

/-- Claim C8: the metrics comparator returns the column-mean current metrics (with
the 35 percent fallback) and the optimized metrics scaled by the improvement
heuristic, with efficiency capped at 59. -/
theorem calculate_metrics_formulas (t : Table) (oy op : ℚ)
    (hne : t.rows ≠ [])
    (hpow : ∀ r ∈ t.rows, r.power_output ≠ none)
    (hwd : ∀ r ∈ t.rows, r.wind_direction ≠ none)
    (hpitch : ∀ r ∈ t.rows, r.pitch_angle ≠ none)
    (heff : t.hasEff = true → ∀ r ∈ t.rows, r.efficiency ≠ none) :
    calculate_metrics t (some oy) (some op) =
      (⟨some (specMean (t.rows.map (fun r => r.power_output.getD 0))),
        some (if t.hasEff then specMean (t.rows.map (fun r => r.efficiency.getD 0)) * 100
              else 35),
        some (specMean (t.rows.map (fun r => r.power_output.getD 0)) * 8760 / 1000)⟩,
       ⟨some (specMean (t.rows.map (fun r => r.power_output.getD 0)) *
          ((1 + 3 / 1000 * specMean (t.rows.map (fun r => |r.wind_direction.getD 0 - oy|))) *
           (1 + 2 / 1000 * specMean (t.rows.map (fun r => |r.pitch_angle.getD 0 - op|))))),
        some (min ((if t.hasEff then specMean (t.rows.map (fun r => r.efficiency.getD 0)) * 100
              else 35) *
          ((1 + 3 / 1000 * specMean (t.rows.map (fun r => |r.wind_direction.getD 0 - oy|))) *
           (1 + 2 / 1000 * specMean (t.rows.map (fun r => |r.pitch_angle.getD 0 - op|))))) 59),
        some (specMean (t.rows.map (fun r => r.power_output.getD 0)) * 8760 / 1000 *
          ((1 + 3 / 1000 * specMean (t.rows.map (fun r => |r.wind_direction.getD 0 - oy|))) *
           (1 + 2 / 1000 * specMean (t.rows.map (fun r => |r.pitch_angle.getD 0 - op|)))))⟩) := by
  have hA := pmean_col hne hpow
  have hY : pmean (t.rows.map (fun r => o2 (fun a b => |a - b|) r.wind_direction (some oy))) =
      some (specMean (t.rows.map (fun r => |r.wind_direction.getD 0 - oy|))) := by
    have hmap : t.rows.map (fun r => o2 (fun a b => |a - b|) r.wind_direction (some oy)) =
        t.rows.map (fun r => some (|r.wind_direction.getD 0 - oy|)) :=
      List.map_congr_left (fun r hr => o2_some_getD (hwd r hr) _)
    rw [hmap, pmean_map_some _ _ hne]
  have hP : pmean (t.rows.map (fun r => o2 (fun a b => |a - b|) r.pitch_angle (some op))) =
      some (specMean (t.rows.map (fun r => |r.pitch_angle.getD 0 - op|))) := by
    have hmap : t.rows.map (fun r => o2 (fun a b => |a - b|) r.pitch_angle (some op)) =
        t.rows.map (fun r => some (|r.pitch_angle.getD 0 - op|)) :=
      List.map_congr_left (fun r hr => o2_some_getD (hpitch r hr) _)
    rw [hmap, pmean_map_some _ _ hne]
  cases hE : t.hasEff with
  | false =>
    simp only [calculate_metrics, hE, hA, hY, hP, Option.map_some', Bool.false_eq_true,
      if_false]
    simp [o2]
  | true =>
    have hEm := pmean_col hne (heff hE)
    simp only [calculate_metrics, hE, hA, hY, hP, hEm, Option.map_some', if_true]
    simp [o2]

def c1rows : List Row := [⟨some 2, some 350, some 1, some 5, some 3, none, none⟩]

theorem power_model_mean_formula_witness :
    relevantRows c1rows 1 ≠ [] ∧
    (∀ r ∈ relevantRows c1rows 1,
      r.wind_direction ≠ none ∧ r.air_density ≠ none ∧ r.pitch_angle ≠ none) ∧
    (power_model (some 10) (some 3) c1rows 1 =
      some (-(specMean ((relevantRows c1rows 1).map (specRowProxy 10 3)))) ∧
    yawMisalignment 350 10 = 20) := by
  have h1 : relevantRows c1rows 1 ≠ [] := by
    norm_num [relevantRows, c1rows, List.filter]
  have h2 : ∀ r ∈ relevantRows c1rows 1,
      r.wind_direction ≠ none ∧ r.air_density ≠ none ∧ r.pitch_angle ≠ none := by
    norm_num [relevantRows, c1rows, List.filter]
    simp
  exact ⟨h1, h2, power_model_mean_formula c1rows 1 10 3 h1 h2⟩

def zeroPowerTable : Table :=
  ⟨true, true, false, false, [⟨some 0, some 0, some (49/40), some 0, some 0, none, none⟩]⟩

theorem process_data_invariants_witness :
    zeroPowerTable.hasEff = false ∧
    ((∀ r ∈ (process_data zeroPowerTable).rows,
        ∃ v, r.wind_speed = some v ∧ 0 ≤ v ∧ v ≤ 50) ∧
     (zeroPowerTable.hasPower = true → ∀ r ∈ (process_data zeroPowerTable).rows,
        ∃ v, r.power_output = some v ∧ 0 ≤ v) ∧
     ((process_data zeroPowerTable).hasEff = true → ∀ r ∈ (process_data zeroPowerTable).rows,
        ∀ v, r.efficiency = some v → 0 ≤ v ∧ v ≤ 59 / 100)) :=
  ⟨rfl, process_data_invariants zeroPowerTable rfl⟩

def c3tbl : Table := ⟨true, true, false, false, [⟨some 2, some 0, some 1, some 1, some 0, none, none⟩]⟩

theorem optimize_power_respects_bounds_witness :
    (0 : ℚ) ≤ 1 ∧ initialYaw c3tbl = some 0 ∧ initialPitch c3tbl = some 0 ∧
    max 0 ((0 : ℚ) - 1) ≤ 0 + 1 ∧
    (∃ ry rp, (optimize_power c3tbl 12 1 1).1 = (some ry, some rp) ∧
      (0 : ℚ) - 1 ≤ ry ∧ ry ≤ 0 + 1 ∧ max 0 ((0 : ℚ) - 1) ≤ rp ∧ rp ≤ 0 + 1) := by
  have hy : initialYaw c3tbl = some 0 := by
    norm_num [initialYaw, pmean, somes, c3tbl]
  have hp : initialPitch c3tbl = some 0 := by
    norm_num [initialPitch, pmean, somes, c3tbl]
  exact ⟨by norm_num, hy, hp, by norm_num,
    optimize_power_respects_bounds c3tbl 12 1 1 0 0 (by norm_num) hy hp (by norm_num)⟩

def c5tbl : Table := ⟨true, true, false, false, [⟨some 2, some 0, some 1, some 1, some 0, none, none⟩]⟩

theorem optimize_power_gain_formula_witness :
    initialPower c5tbl 1 = some 2 ∧ (0 : ℚ) < 2 ∧
    ((2 : ℚ) ≠ 0 ∧
      (optimize_power c5tbl 1 1 1).2 =
        o2 (fun o i => (o / i - 1) * 100)
          (oneg (power_model (optimizedParams c5tbl 1 1 1).1 (optimizedParams c5tbl 1 1 1).2
            c5tbl.rows 1)) (some 2)) := by
  have hip : initialPower c5tbl 1 = some 2 := by
    norm_num [initialPower, initialYaw, initialPitch, power_model, relevantRows, rowPower,
      yawMisalignment, pmean, somes, oneg, c5tbl, List.filter]
  exact ⟨hip, by norm_num, (optimize_power_gain_formula c5tbl 1 1 1).2.2 2 hip (by norm_num)⟩

def specTable : Table := ⟨true, true, false, false,
  [⟨some (36/5), some 245, some (49/40), some 1250, some (5/2), none, none⟩,
   ⟨some (17/2), some 250, some (61/50), some 1650, some 3, none, none⟩,
   ⟨some (63/10), some 255, some (1223/1000), some 980, some (11/5), none, none⟩,
   ⟨some (91/10), some 240, some (609/500), some 1820, some (7/2), none, none⟩,
   ⟨some (26/5), some 260, some (613/500), some 750, some 2, none, none⟩]⟩

theorem power_model_no_relevant_rows_witness :
    (∀ r ∈ specTable.rows, ∀ v, r.wind_speed = some v → v < 12) ∧
    power_model (some 250) (some 3) specTable.rows 12 = some 0 := by
  have h : ∀ r ∈ specTable.rows, ∀ v, r.wind_speed = some v → v < 12 := by
    intro r hr v hv
    simp only [specTable, List.mem_cons, List.not_mem_nil, or_false] at hr
    rcases hr with h1 | h1 | h1 | h1 | h1 <;>
      (subst h1; simp only at hv; rw [show v = _ from (Option.some_injective _ hv).symm]) <;>
      norm_num
  exact ⟨h, power_model_no_relevant_rows specTable.rows 12 (some 250) (some 3) h⟩

def c8tbl : Table := ⟨true, true, false, true,
  [⟨some 10, some 100, some 1, some 100, some 2, none, some (1/2)⟩,
   ⟨some 12, some 110, some 1, some 200, some 4, none, some (1/4)⟩]⟩

theorem calculate_metrics_formulas_witness :
    c8tbl.rows ≠ [] ∧
    (∀ r ∈ c8tbl.rows, r.power_output ≠ none) ∧
    (∀ r ∈ c8tbl.rows, r.wind_direction ≠ none) ∧
    (∀ r ∈ c8tbl.rows, r.pitch_angle ≠ none) ∧
    (c8tbl.hasEff = true → ∀ r ∈ c8tbl.rows, r.efficiency ≠ none) ∧
    calculate_metrics c8tbl (some 90) (some 3) =
      (⟨some (specMean (c8tbl.rows.map (fun r => r.power_output.getD 0))),
        some (if c8tbl.hasEff then specMean (c8tbl.rows.map (fun r => r.efficiency.getD 0)) * 100
              else 35),
        some (specMean (c8tbl.rows.map (fun r => r.power_output.getD 0)) * 8760 / 1000)⟩,
       ⟨some (specMean (c8tbl.rows.map (fun r => r.power_output.getD 0)) *
          ((1 + 3 / 1000 * specMean (c8tbl.rows.map (fun r => |r.wind_direction.getD 0 - 90|))) *
           (1 + 2 / 1000 * specMean (c8tbl.rows.map (fun r => |r.pitch_angle.getD 0 - 3|))))),
        some (min ((if c8tbl.hasEff
                then specMean (c8tbl.rows.map (fun r => r.efficiency.getD 0)) * 100
              else 35) *
          ((1 + 3 / 1000 * specMean (c8tbl.rows.map (fun r => |r.wind_direction.getD 0 - 90|))) *
           (1 + 2 / 1000 * specMean (c8tbl.rows.map (fun r => |r.pitch_angle.getD 0 - 3|))))) 59),
        some (specMean (c8tbl.rows.map (fun r => r.power_output.getD 0)) * 8760 / 1000 *
          ((1 + 3 / 1000 * specMean (c8tbl.rows.map (fun r => |r.wind_direction.getD 0 - 90|))) *
           (1 + 2 / 1000 * specMean (c8tbl.rows.map (fun r => |r.pitch_angle.getD 0 - 3|)))))⟩) := by
  have hne : c8tbl.rows ≠ [] := by simp [c8tbl]
  have hpow : ∀ r ∈ c8tbl.rows, r.power_output ≠ none := by simp [c8tbl]
  have hwd : ∀ r ∈ c8tbl.rows, r.wind_direction ≠ none := by simp [c8tbl]
  have hpitch : ∀ r ∈ c8tbl.rows, r.pitch_angle ≠ none := by simp [c8tbl]
  have heff : c8tbl.hasEff = true → ∀ r ∈ c8tbl.rows, r.efficiency ≠ none := by
    intro _; simp [c8tbl]
  exact ⟨hne, hpow, hwd, hpitch, heff,
    calculate_metrics_formulas c8tbl 90 3 hne hpow hwd hpitch heff⟩

theorem interpolate_gap_policy_witness :
    (∀ i, i ≤ 0 → ([none, some (5 : ℚ)] : List (Option ℚ))[i]? = some none) ∧
    (interpCol [none, some (5 : ℚ)])[0]? = some none ∧
    ([some (1 : ℚ), some 2, none] : List (Option ℚ))[1]? = some (some 2) ∧
    (∀ j, 1 < j → j < ([some (1 : ℚ), some 2, none] : List (Option ℚ)).length →
      ([some (1 : ℚ), some 2, none] : List (Option ℚ))[j]? = some none) ∧
    (interpCol [some (1 : ℚ), some 2, none])[2]? = some (some 2) := by
  have h1 : ∀ i, i ≤ 0 → ([none, some (5 : ℚ)] : List (Option ℚ))[i]? = some none := by
    intro i hi
    have hz : i = 0 := Nat.le_zero.mp hi
    subst hz
    rfl
  have h2 : ∀ j, 1 < j → j < ([some (1 : ℚ), some 2, none] : List (Option ℚ)).length →
      ([some (1 : ℚ), some 2, none] : List (Option ℚ))[j]? = some none := by
    intro j hj1 hj2
    simp only [List.length_cons, List.length_nil] at hj2
    have hz : j = 2 := by omega
    subst hz
    rfl
  exact ⟨h1, interpolate_gap_policy.2.2.1 _ 0 (by norm_num) h1,
    rfl, h2, interpolate_gap_policy.2.2.2 _ 1 2 2 rfl h2 (by norm_num) (by norm_num)⟩

/-- Claim C2 counterexample: cleaning a table containing the row with
wind_speed 0 and power_output 0 yields an efficiency column whose single
value is missing (NaN from the 0/0 division), so not every row of the
cleaned table carries an efficiency value between 0 and 0.59. -/
theorem process_data_efficiency_nan_cex :
    (process_data zeroPowerTable).hasEff = true ∧
    (process_data zeroPowerTable).rows.map Row.efficiency = [none] ∧
    ¬ (∀ r ∈ (process_data zeroPowerTable).rows,
        ∃ v, r.efficiency = some v ∧ 0 ≤ v ∧ v ≤ 59 / 100) := by
  simp only [process_data, cleanRows, filtRows, interpRows, interpField, interpAt, derive,
    theoOf, effOf, xdiv, xclip, o2, wsLo, wsHi, powNonneg, lastSome, firstSome,
    zeroPowerTable, List.filter, List.map, List.range_succ, List.range_zero]
  norm_num
  exact fun x h => Option.noConfusion h

def divZeroTable : Table :=
  ⟨true, true, false, false, [⟨some 0, some 0, some (49/40), some 0, some 0, none, none⟩]⟩

/-- Claim C10: the efficiency computation divides by a zero
theoretical_power with no guard: on the row with wind_speed 0 and
power_output 0 the division step returns NaN, and the cleaned table keeps
theoretical_power 0 with an undefined (missing) efficiency. -/
theorem efficiency_division_by_zero :
    xdiv (((⟨some 0, some 0, some (49/40), some 0, some 0, none, none⟩ : Row).power_output).map
        (fun v => v * 1000))
      (theoOf ⟨some 0, some 0, some (49/40), some 0, some 0, none, none⟩) = XVal.nan ∧
    (process_data divZeroTable).rows.map Row.theoretical_power = [some 0] ∧
    (process_data divZeroTable).rows.map Row.efficiency = [none] := by
  simp only [process_data, cleanRows, filtRows, interpRows, interpField, interpAt, derive,
    theoOf, effOf, xdiv, xclip, o2, wsLo, wsHi, powNonneg, lastSome, firstSome,
    divZeroTable, List.filter, List.map, List.range_succ, List.range_zero]
  norm_num

def emptyInput : Table := ⟨true, true, false, false, []⟩

/-- Claim C4: on an empty dataset neither the optimizer nor the metrics
comparator raises any validation error before computing: the optimizer
proceeds through NaN column means into the minimizer and returns NaN
parameters with gain 0, and the metrics comparator returns NaN metrics;
no DataValidationError exists anywhere in the source. -/
theorem optimize_power_missing_validation_guard :
    optimize_power emptyInput 12 15 10 = ((none, none), some 0) ∧
    calculate_metrics emptyInput (some 5) (some 2) =
      (⟨none, some 35, none⟩, ⟨none, none, none⟩) := by
  simp only [optimize_power, initialYaw, initialPitch, initialPower, power_model, relevantRows,
    pmean, somes, oneg, minimizeBox, oclamp, pyMax0, o2, calculate_metrics, emptyInput,
    List.filter, List.map, List.isEmpty]
  norm_num

def emptyInput2 : Table := ⟨true, true, false, false, []⟩

def negPitchTable : Table :=
  ⟨true, true, false, false, [⟨some 13, some 0, some 1, some 5, some (-100), none, none⟩]⟩

/-- Claim C3 counterexample: on an empty dataset the optimizer returns NaN
parameters, which lie in no interval; and when the mean pitch angle is -100
with range 10 the box is inverted (lower bound 0 exceeds upper bound -90)
and the returned pitch angle -90 violates the claimed lower bound. -/
theorem optimize_power_bounds_cex :
    ((optimize_power emptyInput2 12 15 10).1 = (none, none)) ∧
    (initialPitch negPitchTable = some (-100) ∧
     (optimize_power negPitchTable 12 15 10).1.2 = some (-90) ∧
     ¬ (max 0 ((-100 : ℚ) - 10) ≤ -90 ∧ (-90 : ℚ) ≤ -100 + 10)) := by
  simp only [optimize_power, initialYaw, initialPitch, initialPower, power_model, relevantRows,
    rowPower, yawMisalignment, pmean, somes, oneg, minimizeBox, oclamp, pyMax0, o2,
    emptyInput2, negPitchTable, List.filter, List.map, List.isEmpty]
  norm_num

def trailingGapTable : Table :=
  ⟨false, false, false, false,
    [⟨some 1, some 7, none, none, some 0, none, none⟩,
     ⟨some 2, none, none, none, some 0, none, none⟩]⟩

/-- Claim C9 counterexample: a trailing gap does not remain missing: the
interpolation fills it with the last valid value, both on a bare column and
through the cleaning step (wind_direction 7 is copied into the final row). -/
theorem interpolate_trailing_cex :
    interpCol [some (1 : ℚ), some 2, none] = [some 1, some 2, some 2] ∧
    (process_data trailingGapTable).rows.map Row.wind_direction = [some 7, some 7] := by
  simp only [process_data, cleanRows, filtRows, interpRows, interpField, interpAt, interpCol,
    derive, theoOf, effOf, xdiv, xclip, o2, wsLo, wsHi, powNonneg, lastSome, firstSome,
    trailingGapTable, List.filter, List.map, List.range_succ, List.range_zero, List.length,
    List.take, List.drop]
  norm_num
